import Mathlib

/-!
Verification development for the tokenmeter repository.

The frontend TypeScript sources (`src/types/index.ts`, `src/lib/utils.ts`,
`src/Tray.tsx`, `src/components/Dashboard.tsx`, `src/components/Settings.tsx`,
`src/hooks/useUsageData.ts`) and the Python reference implementation embedded
in `docs/DESIGN.md` are embedded shallowly below.  JavaScript numbers are
modelled as rationals (`ℚ`) for costs and natural numbers for token counts;
JavaScript `Map` objects are modelled as insertion-ordered association lists.

The Rust backend (`src-tauri/`: shell-command validator, process executor,
script sandbox, provider pipeline) is not part of the available sources; those
components are modelled from the specification, as marked by doc comments
starting with "Modelled from the spec:".
-/

namespace Tokenmeter

/-- Per-model usage breakdown, from `ModelUsage` in `src/types/index.ts`. -/
structure ModelUsage where
  model : String
  cost : ℚ
  inputTokens : Nat
  outputTokens : Nat
  deriving Repr, DecidableEq

/-- One day of usage, from `DailyUsage` in `src/types/index.ts`. -/
structure DailyUsage where
  date : String
  cost : ℚ
  inputTokens : Nat
  outputTokens : Nat
  cacheCreationInputTokens : Nat
  cacheReadInputTokens : Nat
  models : List ModelUsage
  deriving Repr, DecidableEq

/-- Usage severity levels, from `UsageLevel` in `src/types/index.ts`. -/
inductive UsageLevel where
  | low
  | medium
  | high
  | critical
  deriving Repr, DecidableEq

/-- `getUsageLevel` from `src/types/index.ts`: thresholds on the
percentage `cost / budget * 100`, with a guard for non-positive budgets. -/
def getUsageLevel (cost budget : ℚ) : UsageLevel :=
  if budget ≤ 0 then .low
  else
    let percentage := cost / budget * 100
    if 90 ≤ percentage then .critical
    else if 75 ≤ percentage then .high
    else if 50 ≤ percentage then .medium
    else .low

/-- `getDailyTotalTokens` from `src/lib/utils.ts`: sum of the four token
categories of a day. -/
def getDailyTotalTokens (day : DailyUsage) : Nat :=
  day.inputTokens + day.outputTokens
    + day.cacheCreationInputTokens + day.cacheReadInputTokens

/-! ### JavaScript `Map<string, ModelUsage>` as an insertion-ordered
association list.  `set` updates the value in place when the key is present
and appends otherwise; `get` finds the first (unique) matching key. -/

/-- Lookup in an insertion-ordered string map. -/
def mapGet : List (String × ModelUsage) → String → Option ModelUsage
  | [], _ => none
  | (k', v') :: rest, k => if k' = k then some v' else mapGet rest k

/-- Update/insert in an insertion-ordered string map. -/
def mapSet : List (String × ModelUsage) → String → ModelUsage → List (String × ModelUsage)
  | [], k, v => [(k, v)]
  | (k', v') :: rest, k, v =>
      if k' = k then (k, v) :: rest else (k', v') :: mapSet rest k v

/-- The loop body shared by both aggregations: add `m`'s fields onto the
entry already stored for `m.model` (or onto a zero entry). -/
def addUsage (ex m : ModelUsage) : ModelUsage :=
  { model := ex.model
    cost := ex.cost + m.cost
    inputTokens := ex.inputTokens + m.inputTokens
    outputTokens := ex.outputTokens + m.outputTokens }

/-- One iteration of the inner loop of `aggregateModels` in `src/Tray.tsx`:
`const existing = modelMap.get(m.model) || {model, 0, 0, 0}; existing.cost += …;
modelMap.set(m.model, existing)`. -/
def trayStep (mm : List (String × ModelUsage)) (m : ModelUsage) :
    List (String × ModelUsage) :=
  let ex := (mapGet mm m.model).getD
    { model := m.model, cost := 0, inputTokens := 0, outputTokens := 0 }
  mapSet mm m.model (addUsage ex m)

/-- Accumulator of `aggregateModels` in `src/Tray.tsx`. -/
structure AggregatedData where
  modelMap : List (String × ModelUsage)
  totalCost : ℚ
  totalTokens : Nat
  deriving Repr, DecidableEq

/-- The body of the outer `for (const day of days)` loop of
`aggregateModels` in `src/Tray.tsx`. -/
def trayDayStep (acc : AggregatedData) (day : DailyUsage) : AggregatedData :=
  { modelMap := day.models.foldl trayStep acc.modelMap
    totalCost := acc.totalCost + day.cost
    totalTokens := acc.totalTokens + getDailyTotalTokens day }

/-- `aggregateModels` from `src/Tray.tsx`: fold over the days, summing
`day.cost` and `getDailyTotalTokens day` and merging each day's models. -/
def aggregateModels (days : List DailyUsage) : AggregatedData :=
  days.foldl trayDayStep { modelMap := [], totalCost := 0, totalTokens := 0 }

/-- One iteration of the model-merging loop inside `Dashboard.filteredData`
(`src/components/Dashboard.tsx`): mutate the existing entry in place when
present, otherwise insert a copy `{ ...model }`. -/
def dashboardStep (mm : List (String × ModelUsage)) (m : ModelUsage) :
    List (String × ModelUsage) :=
  match mapGet mm m.model with
  | some ex => mapSet mm m.model (addUsage ex m)
  | none => mapSet mm m.model m

/-- The body of the outer `for (const day of dailyUsage)` loop inside
`Dashboard.filteredData`. -/
def dashDayStep (mm : List (String × ModelUsage)) (day : DailyUsage) :
    List (String × ModelUsage) :=
  day.models.foldl dashboardStep mm

/-- The model map computed inside `Dashboard.filteredData` for a list of
days already restricted to the selected time range. -/
def dashboardModelMap (days : List DailyUsage) : List (String × ModelUsage) :=
  days.foldl dashDayStep []

/-- The period totals computed by the `reduce` inside `Dashboard.filteredData`
(current version, using `getDailyTotalTokens`). -/
structure PeriodTotals where
  cost : ℚ
  inputTokens : Nat
  outputTokens : Nat
  totalTokens : Nat
  cacheReadTokens : Nat
  cacheWriteTokens : Nat
  deriving Repr, DecidableEq

/-- The body of the `reduce` computing `periodTotals` in
`Dashboard.filteredData`. -/
def dashTotalsStep (acc : PeriodTotals) (day : DailyUsage) : PeriodTotals :=
  { cost := acc.cost + day.cost
    inputTokens := acc.inputTokens + day.inputTokens
    outputTokens := acc.outputTokens + day.outputTokens
    totalTokens := acc.totalTokens + getDailyTotalTokens day
    cacheReadTokens := acc.cacheReadTokens + day.cacheReadInputTokens
    cacheWriteTokens := acc.cacheWriteTokens + day.cacheCreationInputTokens }

/-- The `periodTotals` reduce from `Dashboard.filteredData` in
`src/components/Dashboard.tsx`. -/
def dashboardPeriodTotals (days : List DailyUsage) : PeriodTotals :=
  days.foldl dashTotalsStep
    { cost := 0, inputTokens := 0, outputTokens := 0, totalTokens := 0
      cacheReadTokens := 0, cacheWriteTokens := 0 }

/-- The date-range filter of `Dashboard.filteredData`:
`usage.dailyUsage.filter(d => d.date >= cutoffStr)`. -/
def dashboardFilterRange (cutoff : String) (days : List DailyUsage) : List DailyUsage :=
  days.filter (fun d => cutoff ≤ d.date)

/-! ### Fallback pricing (`calculate_fallback_cost` in `docs/DESIGN.md`)

The Python reference implementation embedded in `docs/DESIGN.md` (the xbar
plugin this application was transformed from).  A Python `dict` with unique
keys is modelled as an association list in insertion order; `str.lower` as
`strLower`; the substring operator `in` as `strContains`. -/

/-- Per-model price pair (per million tokens), an entry of the PricingTable. -/
structure Price where
  input : ℚ
  output : ℚ
  deriving Repr, DecidableEq

/-- `pre` is an initial run of `l` (character-by-character). -/
def leadsWith : List Char → List Char → Bool
  | [], _ => true
  | _ :: _, [] => false
  | c :: cs, d :: ds => c = d && leadsWith cs ds

/-- `needle` occurs contiguously inside `hay` (Python's `needle in hay`). -/
def containsSeq (needle : List Char) : List Char → Bool
  | [] => needle.isEmpty
  | d :: ds => leadsWith needle (d :: ds) || containsSeq needle ds

/-- Python substring test `needle in hay`. -/
def strContains (hay needle : String) : Bool :=
  containsSeq needle.data hay.data

/-- Python `str.lower`, modelled characterwise. -/
def strLower (s : String) : String :=
  String.mk (s.data.map Char.toLower)

/-- Exact (case-sensitive) dictionary lookup, Python `prices[model_name]`
guarded by `model_name in prices`. -/
def dictLookup : List (String × Price) → String → Option Price
  | [], _ => none
  | (k, p) :: rest, n => if k = n then some p else dictLookup rest n

/-- The fuzzy-match loop of `calculate_fallback_cost`:
`for key, p in prices.items(): if model_lower in key.lower() or
key.lower() in model_lower: return p`. -/
def fuzzyLoop (modelLower : String) : List (String × Price) → Option Price
  | [] => none
  | (k, p) :: rest =>
      if strContains (strLower k) modelLower || strContains modelLower (strLower k)
      then some p
      else fuzzyLoop modelLower rest

/-- `calculate_fallback_cost` from `docs/DESIGN.md` (lines 50–63): exact
match first, then the first case-insensitive fuzzy match, else cost 0. -/
def calculate_fallback_cost (model_name : String)
    (input_tokens output_tokens : Nat) (prices : List (String × Price)) : ℚ :=
  match dictLookup prices model_name with
  | some p =>
      ((input_tokens : ℚ) * p.input + (output_tokens : ℚ) * p.output) / 1000000
  | none =>
      match fuzzyLoop (strLower model_name) prices with
      | some p =>
          ((input_tokens : ℚ) * p.input + (output_tokens : ℚ) * p.output) / 1000000
      | none => 0

/-- The price pair described by claim C6's own words: "taken from the
PricingTable by exact model-name match if present, otherwise from the first
key matching by case-insensitive substring containment in either direction
(table key contains model name or model name contains table key)".
Stated independently of `calculate_fallback_cost` for comparison. -/
def claimPricePair (model_name : String)
    (prices : List (String × Price)) : Option Price :=
  match prices.find? (fun kp => kp.1 = model_name) with
  | some kp => some kp.2
  | none =>
      (prices.find? (fun kp =>
          strContains (strLower kp.1) (strLower model_name)
          || strContains (strLower model_name) (strLower kp.1))).map Prod.snd

/-! ### Refresh interval (`src/hooks/useUsageData.ts`, `src/components/Settings.tsx`) -/

/-- `MIN_REFRESH_INTERVAL` from `src/hooks/useUsageData.ts`. -/
def MIN_REFRESH_INTERVAL : Int := 60

/-- `MAX_REFRESH_INTERVAL` from `src/hooks/useUsageData.ts`. -/
def MAX_REFRESH_INTERVAL : Int := 3600

/-- `DEFAULT_REFRESH_INTERVAL` from `src/hooks/useUsageData.ts`. -/
def DEFAULT_REFRESH_INTERVAL : Int := 900

/-- The polling interval (milliseconds) computed by `useUsageData` in
`src/hooks/useUsageData.ts`: `rawInterval = config?.refreshInterval ?? 900;
clamped = Math.max(60, Math.min(3600, rawInterval)); clamped * 1000`.
The argument is the loaded config's `refreshInterval`, or `none` when no
config is loaded. -/
def effectiveRefreshIntervalMs (cfg : Option Int) : Int :=
  let rawInterval := cfg.getD DEFAULT_REFRESH_INTERVAL
  let clampedInterval := max MIN_REFRESH_INTERVAL (min MAX_REFRESH_INTERVAL rawInterval)
  clampedInterval * 1000

/-- Leading decimal digits of a character list, as a number; `none` when the
list does not start with a digit (JavaScript `parseInt` yields `NaN`). -/
def digitsToNat (l : List Char) : Option Nat :=
  let ds := l.takeWhile Char.isDigit
  if ds.isEmpty then none
  else some (ds.foldl (fun acc c => acc * 10 + (c.toNat - 48)) 0)

/-- JavaScript `Number.parseInt(s, 10)`: skip leading whitespace, optional
sign, then a maximal run of decimal digits; `none` models `NaN`. -/
def parseIntJS (s : String) : Option Int :=
  match s.data.dropWhile Char.isWhitespace with
  | [] => none
  | c :: rest =>
      if c = '-' then (digitsToNat rest).map (fun n => -(n : Int))
      else if c = '+' then (digitsToNat rest).map (fun n => (n : Int))
      else (digitsToNat (c :: rest)).map (fun n => (n : Int))

/-- `Math.max(clamp.min ?? -Infinity, Math.min(clamp.max ?? Infinity, value))`
from `createNumberInputHandlers` in `src/components/Settings.tsx`. -/
def clampOpt (lo hi : Option Int) (v : Int) : Int :=
  let upper := match hi with
    | some h => min h v
    | none => v
  match lo with
  | some l => max l upper
  | none => upper

/-- The `onChange` handler built by `createNumberInputHandlers` in
`src/components/Settings.tsx`: parse the field text and store the value
unmodified; keep the current value when parsing yields `NaN`. -/
def numberInputOnChange (parse : String → Option Int) (s : String) (cur : Int) : Int :=
  match parse s with
  | some v => v
  | none => cur

/-- The `onBlur` handler built by `createNumberInputHandlers` in
`src/components/Settings.tsx`: parse the field text and store the clamped
value; keep the current value when parsing yields `NaN`. -/
def numberInputOnBlur (parse : String → Option Int) (lo hi : Option Int)
    (s : String) (cur : Int) : Int :=
  match parse s with
  | some v => clampOpt lo hi v
  | none => cur

/-- The refresh-interval field's `onChange`, as instantiated in `Settings`
(`src/components/Settings.tsx`): parser `Number.parseInt(str, 10)`. -/
def refreshOnChange (s : String) (cur : Int) : Int :=
  numberInputOnChange parseIntJS s cur

/-- The refresh-interval field's `onBlur`, as instantiated in `Settings`
(`src/components/Settings.tsx`): clamp bounds `{ min: 60, max: 3600 }`. -/
def refreshOnBlur (s : String) (cur : Int) : Int :=
  numberInputOnBlur parseIntJS (some 60) (some 3600) s cur

/-! ### Shell-command validator (spec §4.1)

The Rust backend (`src-tauri/src/services/provider.rs` and friends) is not
among the available sources, so the validator is modelled from the
specification's contract. -/

/-- Named characters, to keep the scanner states readable. -/
def backslashC : Char := Char.ofNat 92

/-- The single-quote character. -/
def squoteC : Char := Char.ofNat 39

/-- The `\x7b` (left-brace) character. -/
def lbraceC : Char := Char.ofNat 123

/-- The `\x7d` (right-brace) character. -/
def rbraceC : Char := Char.ofNat 125

/-- Rejection reasons of the validator (spec §4.1): `disallowedProgram`,
`shellMetacharacter`, `undeclaredVariable`, `malformedQuoting`. -/
inductive RejectReason where
  | disallowedProgram
  | shellMetacharacter
  | undeclaredVariable
  | malformedQuoting
  deriving Repr, DecidableEq

/-- Modelled from the spec: the `$(` scan of the metacharacter check
(missing backend validator).  True when the two-character sequence `$(`
occurs in the command. -/
def hasDollarParen : List Char → Bool
  | [] => false
  | [_] => false
  | c :: c' :: rest =>
      (c = '$' && c' = '(') || hasDollarParen (c' :: rest)

/-- Modelled from the spec: the shell-metacharacter scan of the missing
backend validator.  Spec §8: "For all command strings containing any of
`; | & $( )` or a backtick, the Validator rejects with
`shellMetacharacter`". -/
def containsShellMeta (s : String) : Bool :=
  s.data.any (fun c =>
    c = ';' || c = '|' || c = '&' || c = Char.ofNat 96 || c = ')')
  || hasDollarParen s.data

/-- Quoting state of the shell-word splitter. -/
inductive QMode where
  | plain
  | dquoted
  | addsquoted
  deriving Repr, DecidableEq

/-- Flush the word under construction, if any, into the word list. -/
def flushWord (cur : Option (List Char)) : List (List Char) :=
  match cur with
  | some w => [w]
  | none => []

/-- Modelled from the spec: shell-word splitting of the missing backend
validator ("quoting, escaping honored").  Splits on spaces, honours double
and single quotes and backslash escapes; `none` signals malformed quoting
(unterminated quote or trailing backslash). -/
def wordsAux : List Char → QMode → Option (List Char) → List (List Char) →
    Option (List (List Char))
  | [], .plain, cur, acc => some (acc ++ flushWord cur)
  | [], _, _, _ => none
  | c :: rest, .plain, cur, acc =>
      if c = ' ' then wordsAux rest .plain none (acc ++ flushWord cur)
      else if c = '"' then wordsAux rest .dquoted (some (cur.getD [])) acc
      else if c = squoteC then wordsAux rest .addsquoted (some (cur.getD [])) acc
      else if c = backslashC then
        match rest with
        | [] => none
        | c2 :: rest2 => wordsAux rest2 .plain (some (cur.getD [] ++ [c2])) acc
      else wordsAux rest .plain (some (cur.getD [] ++ [c])) acc
  | c :: rest, .dquoted, cur, acc =>
      if c = '"' then wordsAux rest .plain cur acc
      else if c = backslashC then
        match rest with
        | [] => none
        | c2 :: rest2 => wordsAux rest2 .dquoted (some (cur.getD [] ++ [c2])) acc
      else wordsAux rest .dquoted (some (cur.getD [] ++ [c])) acc
  | c :: rest, .addsquoted, cur, acc =>
      if c = squoteC then wordsAux rest .plain cur acc
      else wordsAux rest .addsquoted (some (cur.getD [] ++ [c])) acc

/-- Modelled from the spec: the word splitter of the missing backend
validator, entry point. -/
def splitWords (s : String) : Option (List String) :=
  (wordsAux s.data .plain none []).map (List.map String.mk)

/-- Modelled from the spec: placeholder extraction of the missing backend
validator.  Scans for `${NAME}` occurrences; the second argument holds the
name collected so far when inside a placeholder.  An unterminated
placeholder contributes nothing. -/
def phAux : List Char → Option (List Char) → List String
  | [], _ => []
  | c :: rest, some buf =>
      if c = rbraceC then String.mk buf :: phAux rest none
      else phAux rest (some (buf ++ [c]))
  | c :: rest, none =>
      if c = '$' then
        match rest with
        | [] => []
        | c2 :: rest2 =>
            if c2 = lbraceC then phAux rest2 (some [])
            else phAux (c2 :: rest2) none
      else phAux rest none

/-- Modelled from the spec: all `${VAR}`-style placeholder names occurring
in a command string. -/
def extractPlaceholders (s : String) : List String :=
  phAux s.data none

/-- Does the provider's `env` map declare key `v`? -/
def envHasKey (env : List (String × String)) (v : String) : Bool :=
  env.any (fun kv => kv.1 = v)

/-- Modelled from the spec: the fixed program allow-list of the missing
backend validator ("a small set of HTTP-fetching CLIs"). -/
def allowedPrograms : List String := ["curl", "wget"]

/-- Characters after the last `/`. -/
def baseAux : List Char → List Char → List Char
  | [], acc => acc
  | c :: rest, acc =>
      if c = '/' then baseAux rest [] else baseAux rest (acc ++ [c])

/-- Drop a leading path from the program token (spec §4.1: "after resolving
any leading path"). -/
def basename (s : String) : String :=
  String.mk (baseAux s.data [])

/-- Modelled from the spec: the Shell-Command Validator of the missing
backend (`src-tauri`), per spec §4.1, with its checks in the order the
contract lists them: metacharacter scan, shell-word splitting, program
allow-list, `${VAR}` placeholder declaration check.  Pure function;
returns the tokenized command with placeholders still unexpanded, or a
rejection reason. -/
def validateCommand (cmd : String) (env : List (String × String)) :
    Except RejectReason (List String) :=
  if containsShellMeta cmd then .error .shellMetacharacter
  else
    match splitWords cmd with
    | none => .error .malformedQuoting
    | some [] => .error .disallowedProgram
    | some (w :: ws) =>
        if basename w ∈ allowedPrograms then
          if (extractPlaceholders cmd).all (envHasKey env) then .ok (w :: ws)
          else .error .undeclaredVariable
        else .error .disallowedProgram

/-! ### Script sandbox (spec §4.3, §9) and provider pipeline (spec §4.4)

The backend sandbox (boa_engine embedding in
`src-tauri/src/services/script_runner.rs`) and the pipeline orchestrator are
not among the available sources; they are modelled from the specification.
Spec §9 itself prescribes the abstraction
"evaluate(functionSource, jsonInput, budget) -> Result". -/

/-- JSON values (already parsed), the data exchanged between fetch,
transform and normalization. -/
inductive Json where
  | null
  | bool (b : Bool)
  | num (q : ℚ)
  | str (s : String)
  | arr (elems : List Json)
  | obj (fields : List (String × Json))
  deriving Repr

/-- One observable step of a sandboxed script: keep running (in a new
interpreter state), return a value, or throw. -/
inductive StepResult where
  | running (next : Nat)
  | done (value : Json)
  | threw (msg : String)

/-- Modelled from the spec: a user-supplied transform script, abstracted by
its interpreter semantics — an initial interpreter state for a given JSON
input, and a deterministic step function (spec §4.3: fresh interpreter
state per invocation, pure computation only). -/
structure TransformScript where
  init : Json → Nat
  step : Nat → StepResult

/-- Fuel-bounded interpreter loop of the sandbox. -/
def sandboxAux (sc : TransformScript) : Nat → Nat → Except String Json
  | 0, _ => .error "resourceLimitExceeded"
  | fuel + 1, st =>
      match sc.step st with
      | .running st' => sandboxAux sc fuel st'
      | .done v => .ok v
      | .threw m => .error m

/-- Modelled from the spec: the Script Sandbox of the missing backend
(spec §4.3).  The CPU/wall-clock and memory budgets are abstracted as a
fuel bound on interpreter steps; exhausting the budget aborts execution
with `resourceLimitExceeded`.  Total by construction: the caller always
gets an answer after at most `budget` steps. -/
def sandboxRun (sc : TransformScript) (input : Json) (budget : Nat) :
    Except String Json :=
  sandboxAux sc budget (sc.init input)

/-- Auxiliary halting test for the interpreter loop. -/
def haltsWithinAux (sc : TransformScript) : Nat → Nat → Bool
  | 0, _ => false
  | fuel + 1, st =>
      match sc.step st with
      | .running st' => haltsWithinAux sc fuel st'
      | .done _ => true
      | .threw _ => true

/-- Does the script's execution on `input` finish (return or throw) within
`budget` interpreter steps? -/
def haltsWithin (sc : TransformScript) (input : Json) (budget : Nat) : Bool :=
  haltsWithinAux sc budget (sc.init input)

/-- The canonical normalized output shape (spec §4.3: "a record containing
some subset of: cost, token counts, used/total pair"). -/
structure NormRecord where
  cost : ℚ
  tokens : ℚ
  used : ℚ
  total : ℚ
  deriving Repr, DecidableEq

/-- Numeric field lookup during normalization: an absent field defaults to
zero (spec §4.4), a present non-numeric field is a shape error (spec §4.3). -/
def getNumField : List (String × Json) → String → Option ℚ
  | [], _ => some 0
  | (k', v) :: rest, k =>
      if k' = k then
        match v with
        | .num q => some q
        | _ => none
      else getNumField rest k

/-- Modelled from the spec: normalization of the sandbox's return value
(spec §4.4: "fields absent from the script's output default to zero";
spec §4.3: values of the wrong type are a transform failure, signalled
here by `none`). -/
def normalize (j : Json) : Option NormRecord :=
  match j with
  | .obj fields => do
      let cost ← getNumField fields "cost"
      let tokens ← getNumField fields "tokens"
      let used ← getNumField fields "used"
      let total ← getNumField fields "total"
      some { cost := cost, tokens := tokens, used := used, total := total }
  | _ => none

/-- Provider definition (spec §3), with the transform script abstracted by
its sandbox semantics. -/
structure Provider where
  id : String
  name : String
  enabled : Bool
  fetchCommand : String
  transformScript : TransformScript
  env : List (String × String)
  lastFetchedAt : Option String
  lastError : Option String

/-- Outcome of one Process Executor invocation (spec §4.2): raw stdout on
success, or a failure reason (timeout, outputTooLarge, nonzero exit, …). -/
inductive ExecOutcome where
  | output (stdout : String)
  | failure (reason : String)

/-- The pipeline's collaborators (spec §4.2, §6): the Process Executor and
the JSON parser, abstracted as oracles, plus the sandbox budget. -/
structure PipelineEnv where
  exec : List String → List (String × String) → ExecOutcome
  parseJson : String → Option Json
  budget : Nat

/-- Lookup in the provider's `env` map. -/
def envLookup : List (String × String) → String → Option String
  | [], _ => none
  | (k, v) :: rest, n => if k = n then some v else envLookup rest n

/-- Modelled from the spec: placeholder expansion applied to a validated
token (spec §4.4: "placeholders substituted with their literal
provider-env values, not re-parsed as shell syntax"). -/
def expAux (env : List (String × String)) :
    List Char → Option (List Char) → List Char
  | [], none => []
  | [], some buf => '$' :: lbraceC :: buf
  | c :: rest, some buf =>
      if c = rbraceC then
        ((envLookup env (String.mk buf)).getD "").data ++ expAux env rest none
      else expAux env rest (some (buf ++ [c]))
  | c :: rest, none =>
      if c = '$' then
        match rest with
        | [] => [c]
        | c2 :: rest2 =>
            if c2 = lbraceC then expAux env rest2 (some [])
            else c :: expAux env (c2 :: rest2) none
      else c :: expAux env rest none

/-- Expand every `${VAR}` placeholder in one token. -/
def expandToken (env : List (String × String)) (tok : String) : String :=
  String.mk (expAux env tok.data none)

/-- Human-readable text for a validation rejection. -/
def reasonText : RejectReason → String
  | .disallowedProgram => "disallowedProgram"
  | .shellMetacharacter => "shellMetacharacter"
  | .undeclaredVariable => "undeclaredVariable"
  | .malformedQuoting => "malformedQuoting"

/-- Tagged outcome of one provider pipeline run (spec §3
`ExecutionResult`, plus the no-op result for disabled providers). -/
inductive PipelineOutcome where
  | skipped
  | success (record : NormRecord)
  | validationRejected (r : RejectReason)
  | fetchFailed (msg : String)
  | transformFailed (msg : String)

/-- Is the outcome a failure (as opposed to success or the disabled
short-circuit)? -/
def PipelineOutcome.isFailure : PipelineOutcome → Bool
  | .skipped => false
  | .success _ => false
  | .validationRejected _ => true
  | .fetchFailed _ => true
  | .transformFailed _ => true

/-- Everything observable about one pipeline run: the tagged outcome, the
provider with updated status fields, the provider's cached last-known-good
data after the run, and whether a child process was spawned. -/
structure RunResult where
  outcome : PipelineOutcome
  provider : Provider
  cache : Option NormRecord
  spawned : Bool

/-- Modelled from the spec: the Provider Pipeline of the missing backend
(spec §4.4), orchestrating validate → fetch → parse → transform →
normalize for one provider.  Disabled providers short-circuit to `skipped`
with nothing touched; a validation rejection spawns no process; any failure
sets `lastError` and leaves the cached data untouched; full success updates
`lastFetchedAt`, clears `lastError` and replaces the cache. -/
def runProvider (E : PipelineEnv) (p : Provider) (cache : Option NormRecord)
    (now : String) : RunResult :=
  if p.enabled = false then
    ⟨.skipped, p, cache, false⟩
  else
    match validateCommand p.fetchCommand p.env with
    | .error r =>
        ⟨.validationRejected r,
          { p with lastError := some ("validation failed: " ++ reasonText r) },
          cache, false⟩
    | .ok toks =>
        match E.exec (toks.map (expandToken p.env)) p.env with
        | .failure msg =>
            ⟨.fetchFailed msg,
              { p with lastError := some ("fetch failed: " ++ msg) },
              cache, true⟩
        | .output out =>
            match E.parseJson out with
            | none =>
                ⟨.fetchFailed "invalidJson",
                  { p with lastError := some "fetch failed: invalidJson" },
                  cache, true⟩
            | some j =>
                match sandboxRun p.transformScript j E.budget with
                | .error m =>
                    ⟨.transformFailed m,
                      { p with lastError := some ("transform failed: " ++ m) },
                      cache, true⟩
                | .ok v =>
                    match normalize v with
                    | none =>
                        ⟨.transformFailed "invalidShape",
                          { p with lastError := some "transform failed: invalidShape" },
                          cache, true⟩
                    | some r =>
                        ⟨.success r,
                          { p with lastFetchedAt := some now, lastError := none },
                          some r, true⟩

/-- Modelled from the spec: a `refreshUsage` run over the provider set
(spec §6), running each provider's pipeline with its own cached data. -/
def refreshUsage (E : PipelineEnv) (now : String)
    (ps : List (Provider × Option NormRecord)) : List RunResult :=
  ps.map (fun pc => runProvider E pc.1 pc.2 now)

/-! ### Concrete test fixtures used to evaluate the models on specific
inputs. -/

/-- A transform script that loops forever: every step keeps running. -/
def loopScript : TransformScript :=
  { init := fun _ => 0, step := fun st => .running st }

/-- A pipeline environment whose executor always fails. -/
def failEnv : PipelineEnv :=
  { exec := fun _ _ => .failure "boom", parseJson := fun _ => none, budget := 0 }

/-- A pipeline environment whose executor returns an empty JSON object and
whose sandbox budget is 5 steps. -/
def okEnv : PipelineEnv :=
  { exec := fun _ _ => .output "ok"
    parseJson := fun _ => some (.obj [])
    budget := 5 }

/-- An enabled provider with a valid fetch command whose transform script
loops forever. -/
def loopProvider : Provider :=
  { id := "p-loop", name := "Loop", enabled := true
    fetchCommand := "curl https://x", transformScript := loopScript
    env := [], lastFetchedAt := none, lastError := none }

/-- An enabled provider with a valid fetch command. -/
def curlProvider : Provider :=
  { id := "p-curl", name := "Curl", enabled := true
    fetchCommand := "curl https://x", transformScript := loopScript
    env := [], lastFetchedAt := none, lastError := none }

/-- A disabled provider (with a command that would be rejected, to show it
is never even validated). -/
def disabledProvider : Provider :=
  { id := "p-off", name := "Off", enabled := false
    fetchCommand := "rm -rf /; curl x", transformScript := loopScript
    env := [], lastFetchedAt := some "2024-01-01", lastError := some "old" }

/-- A provider whose fetch command contains a shell metacharacter. -/
def metaProvider : Provider :=
  { id := "p-meta", name := "Meta", enabled := true
    fetchCommand := "curl a;b", transformScript := loopScript
    env := [], lastFetchedAt := none, lastError := none }

/-- A concrete cached usage record. -/
def cachedRecord : NormRecord :=
  { cost := 1, tokens := 2, used := 0, total := 0 }

/-! ## Theorems -/

/-- C9: `getUsageLevel` is total and never divides by zero: a non-positive
budget yields `low` without computing the ratio; for a positive budget the
level is exactly determined by the ratio `cost / budget` against the
thresholds 0.9, 0.75 and 0.5. -/
theorem C9_getUsageLevel_total_thresholds (cost budget : ℚ) :
    (budget ≤ 0 → getUsageLevel cost budget = .low) ∧
    (0 < budget →
      (getUsageLevel cost budget = .critical ↔ (9 : ℚ) / 10 ≤ cost / budget) ∧
      (getUsageLevel cost budget = .high ↔
        (3 : ℚ) / 4 ≤ cost / budget ∧ cost / budget < (9 : ℚ) / 10) ∧
      (getUsageLevel cost budget = .medium ↔
        (1 : ℚ) / 2 ≤ cost / budget ∧ cost / budget < (3 : ℚ) / 4) ∧
      (getUsageLevel cost budget = .low ↔ cost / budget < (1 : ℚ) / 2)) := by
  constructor
  · intro hb
    simp [getUsageLevel, hb]
  · intro hb
    have hbne : ¬budget ≤ 0 := not_le.mpr hb
    simp only [getUsageLevel, if_neg hbne]
    set r := cost / budget with hr
    split_ifs with h1 h2 h3
    · exact ⟨iff_of_true rfl (by linarith),
        iff_of_false (by decide) (fun h => by linarith [h.2]),
        iff_of_false (by decide) (fun h => by linarith [h.2]),
        iff_of_false (by decide) (fun h => by linarith)⟩
    · exact ⟨iff_of_false (by decide) (fun h => by linarith),
        iff_of_true rfl ⟨by linarith, by linarith⟩,
        iff_of_false (by decide) (fun h => by linarith [h.2]),
        iff_of_false (by decide) (fun h => by linarith)⟩
    · exact ⟨iff_of_false (by decide) (fun h => by linarith),
        iff_of_false (by decide) (fun h => by linarith [h.1]),
        iff_of_true rfl ⟨by linarith, by linarith⟩,
        iff_of_false (by decide) (fun h => by linarith)⟩
    · exact ⟨iff_of_false (by decide) (fun h => by linarith),
        iff_of_false (by decide) (fun h => by linarith [h.1]),
        iff_of_false (by decide) (fun h => by linarith [h.1]),
        iff_of_true rfl (by linarith)⟩

/-- Witness for C9 at a concrete input: cost 9 against budget 10 is ratio
0.9, hence `critical`. -/
theorem C9_witness : getUsageLevel 9 10 = UsageLevel.critical := by
  have h := ((C9_getUsageLevel_total_thresholds 9 10).2 (by norm_num)).1
  exact h.mpr (by norm_num)

/-- The exact-match dictionary lookup is the first association with the
given key. -/
lemma dictLookup_eq_find (prices : List (String × Price)) (n : String) :
    dictLookup prices n = (prices.find? (fun kp => kp.1 = n)).map Prod.snd := by
  induction prices with
  | nil => rfl
  | cons kp rest ih =>
      by_cases h : kp.1 = n
      · obtain ⟨k, p⟩ := kp
        simp only at h
        simp [dictLookup, List.find?, h]
      · obtain ⟨k, p⟩ := kp
        simp only at h
        simp [dictLookup, List.find?, h, ih]

/-- The fuzzy-match loop is the first association whose key matches by
case-insensitive substring containment in either direction. -/
lemma fuzzyLoop_eq_find (ml : String) (prices : List (String × Price)) :
    fuzzyLoop ml prices =
      (prices.find? (fun kp =>
        strContains (strLower kp.1) ml || strContains ml (strLower kp.1))).map
        Prod.snd := by
  induction prices with
  | nil => rfl
  | cons kp rest ih =>
      obtain ⟨k, p⟩ := kp
      by_cases h : (strContains (strLower k) ml || strContains ml (strLower k)) = true
      · simp [fuzzyLoop, List.find?, h]
      · simp [fuzzyLoop, List.find?, h, ih]

/-- C6: the fallback cost of a zero-cost model-breakdown entry equals
`(inputTokens * inputPrice + outputTokens * outputPrice) / 1_000_000` with
the price pair selected exactly as the claim describes (exact match first,
then first bidirectional case-insensitive substring match), staying 0 when
no key matches; and the two concrete scenarios from the specification. -/
theorem C6_fallback_cost (model_name : String) (inTok outTok : Nat)
    (prices : List (String × Price)) :
    (calculate_fallback_cost model_name inTok outTok prices =
      match claimPricePair model_name prices with
      | some p => ((inTok : ℚ) * p.input + (outTok : ℚ) * p.output) / 1000000
      | none => 0) ∧
    calculate_fallback_cost "gpt-x" 1000 500 [("gpt-x", ⟨1, 2⟩)] = (0.002 : ℚ) ∧
    calculate_fallback_cost "claude-3-opus-20240229" 1000000 0
      [("claude-3-opus", ⟨3, 15⟩)] = 3 := by
  refine ⟨?_, ?_, ?_⟩
  · unfold calculate_fallback_cost claimPricePair
    rw [dictLookup_eq_find]
    cases hf : prices.find? (fun kp => kp.1 = model_name) with
    | some kp => simp
    | none =>
        simp only [Option.map_none]
        rw [fuzzyLoop_eq_find]
        cases hz : prices.find? (fun kp =>
            strContains (strLower kp.1) (strLower model_name)
            || strContains (strLower model_name) (strLower kp.1)) with
        | some kp => simp
        | none => simp
  · norm_num [calculate_fallback_cost, dictLookup]
  · have hd : dictLookup [("claude-3-opus", ⟨3, 15⟩)] "claude-3-opus-20240229"
        = none := by decide
    have hz : fuzzyLoop (strLower "claude-3-opus-20240229")
        [("claude-3-opus", (⟨3, 15⟩ : Price))] = some ⟨3, 15⟩ := by decide
    rw [calculate_fallback_cost, hd, hz]
    norm_num

/-- C7 counterexample: the settings form's `onChange` handler stores the
parsed value without clamping — typing "10" stores 10, which is outside
[60, 3600].  (Only the `onBlur` handler clamps.) -/
theorem C7_counterexample :
    refreshOnChange "10" 900 = 10 ∧
    ¬(60 ≤ refreshOnChange "10" 900 ∧ refreshOnChange "10" 900 ≤ 3600) := by
  decide

/-- C7 (amended): the polling interval actually used is always within
[60000, 3600000] milliseconds, equals 900 seconds when no config is loaded
and `max 60 (min 3600 r) * 1000` for a configured value `r`; the settings
form clamps the refresh interval into [60, 3600] in its `onBlur` (commit)
handler, while the `onChange` handler stores the parsed value unclamped
and both handlers ignore non-numeric input. -/
theorem C7_refresh_interval_bounds :
    (∀ cfg : Option Int,
      60 * 1000 ≤ effectiveRefreshIntervalMs cfg ∧
      effectiveRefreshIntervalMs cfg ≤ 3600 * 1000) ∧
    effectiveRefreshIntervalMs none = 900 * 1000 ∧
    (∀ r : Int, effectiveRefreshIntervalMs (some r) = max 60 (min 3600 r) * 1000) ∧
    (∀ s cur v, parseIntJS s = some v → refreshOnBlur s cur = max 60 (min 3600 v)) ∧
    (∀ s cur, parseIntJS s = none →
      refreshOnChange s cur = cur ∧ refreshOnBlur s cur = cur) := by
  have hbounds : ∀ x : Int,
      60 * 1000 ≤ max 60 (min 3600 x) * 1000 ∧
      max 60 (min 3600 x) * 1000 ≤ 3600 * 1000 := by
    intro x
    constructor
    · have h : (60 : Int) ≤ max 60 (min 3600 x) := le_max_left _ _
      linarith
    · have h : max 60 (min 3600 x) ≤ 3600 :=
        max_le (by norm_num) (min_le_left _ _)
      linarith
  refine ⟨?_, rfl, ?_, ?_, ?_⟩
  · intro cfg
    cases cfg with
    | none => exact hbounds 900
    | some r => exact hbounds r
  · intro r
    rfl
  · intro s cur v h
    unfold refreshOnBlur numberInputOnBlur
    rw [h]
    rfl
  · intro s cur h
    constructor
    · unfold refreshOnChange numberInputOnChange
      rw [h]
    · unfold refreshOnBlur numberInputOnBlur
      rw [h]

/-- Witness for C7's amended claim at a concrete input: blurring the field
with text "10" commits the clamped value 60. -/
theorem C7_witness : refreshOnBlur "10" 900 = 60 := by
  rw [C7_refresh_interval_bounds.2.2.2.1 "10" 900 10 (by decide)]
  decide

/-- Looking up the key just set yields the value just set. -/
lemma mapGet_set_self (mm : List (String × ModelUsage)) (k : String)
    (v : ModelUsage) : mapGet (mapSet mm k v) k = some v := by
  induction mm with
  | nil => simp [mapSet, mapGet]
  | cons kv rest ih =>
      obtain ⟨k', v'⟩ := kv
      by_cases h : k' = k
      · simp [mapSet, mapGet, h]
      · simp [mapSet, mapGet, h, ih]

/-- Setting one key does not change the lookup of another. -/
lemma mapGet_set_ne (mm : List (String × ModelUsage)) (k : String)
    (v : ModelUsage) (k' : String) (h : ¬k = k') :
    mapGet (mapSet mm k v) k' = mapGet mm k' := by
  have h' : ¬k' = k := fun e => h e.symm
  induction mm with
  | nil => simp [mapSet, mapGet, h]
  | cons kv rest ih =>
      obtain ⟨a, b⟩ := kv
      by_cases ha : a = k
      · subst ha
        simp [mapSet, mapGet, h, h']
      · by_cases ha' : a = k'
        · simp [mapSet, mapGet, ha, ha', h']
        · simp [mapSet, mapGet, ha, ha', ih]

/-- Folding the Tray merge step over a model list, starting from a map that
already holds `ex` at `name`, accumulates exactly the models named `name`
onto `ex`. -/
lemma trayFold_lookup_some (ms : List ModelUsage) :
    ∀ (acc : List (String × ModelUsage)) (name : String) (ex : ModelUsage),
      mapGet acc name = some ex →
      mapGet (ms.foldl trayStep acc) name =
        some ((ms.filter (fun m => m.model = name)).foldl addUsage ex) := by
  induction ms with
  | nil =>
      intro acc name ex h
      simpa using h
  | cons m rest ih =>
      intro acc name ex h
      by_cases hm : m.model = name
      · subst hm
        have hget : mapGet acc m.model = some ex := h
        have hstep : mapGet (trayStep acc m) m.model = some (addUsage ex m) := by
          unfold trayStep
          rw [hget, Option.getD_some]
          exact mapGet_set_self _ _ _
        rw [List.foldl_cons, ih _ _ _ hstep]
        simp [List.filter_cons]
      · have hstep : mapGet (trayStep acc m) name = some ex := by
          unfold trayStep
          rw [mapGet_set_ne _ _ _ _ hm]
          exact h
        rw [List.foldl_cons, ih _ _ _ hstep]
        simp [List.filter_cons, hm]

/-- Folding the Tray merge step over a model list, starting from a map with
no entry at `name`, yields no entry when no model is named `name`, and
otherwise the models named `name` accumulated onto a zero entry. -/
lemma trayFold_lookup_none (ms : List ModelUsage) :
    ∀ (acc : List (String × ModelUsage)) (name : String),
      mapGet acc name = none →
      mapGet (ms.foldl trayStep acc) name =
        match ms.filter (fun m => m.model = name) with
        | [] => none
        | m :: fs =>
            some (fs.foldl addUsage (addUsage
              { model := name, cost := 0, inputTokens := 0, outputTokens := 0 } m)) := by
  induction ms with
  | nil =>
      intro acc name h
      simpa using h
  | cons m rest ih =>
      intro acc name h
      by_cases hm : m.model = name
      · subst hm
        have hstep : mapGet (trayStep acc m) m.model =
            some (addUsage
              { model := m.model, cost := 0, inputTokens := 0, outputTokens := 0 } m) := by
          unfold trayStep
          rw [h]
          exact mapGet_set_self _ _ _
        rw [List.foldl_cons, trayFold_lookup_some rest _ _ _ hstep]
        simp [List.filter_cons]
      · have hstep : mapGet (trayStep acc m) name = none := by
          unfold trayStep
          rw [mapGet_set_ne _ _ _ _ hm]
          exact h
        rw [List.foldl_cons, ih _ _ hstep]
        simp [List.filter_cons, hm]

/-- Accumulating with `addUsage` sums each numeric field and keeps the base
entry's model name. -/
lemma foldl_addUsage (fs : List ModelUsage) :
    ∀ base : ModelUsage,
      fs.foldl addUsage base =
        { model := base.model
          cost := base.cost + (fs.map (fun m => m.cost)).sum
          inputTokens := base.inputTokens + (fs.map (fun m => m.inputTokens)).sum
          outputTokens := base.outputTokens + (fs.map (fun m => m.outputTokens)).sum } := by
  induction fs with
  | nil =>
      intro base
      cases base
      simp
  | cons m fs ih =>
      intro base
      rw [List.foldl_cons, ih]
      simp [addUsage, add_assoc]

/-- The outer loop of `aggregateModels`, over any accumulator: the model
map is a single fold over the concatenation of the days' model lists, and
the totals add the per-day sums. -/
lemma aggregateModels_foldl (days : List DailyUsage) :
    ∀ acc : AggregatedData,
      days.foldl trayDayStep acc =
        { modelMap := (days.flatMap (fun d => d.models)).foldl trayStep acc.modelMap
          totalCost := acc.totalCost + (days.map (fun d => d.cost)).sum
          totalTokens := acc.totalTokens + (days.map getDailyTotalTokens).sum } := by
  induction days with
  | nil =>
      intro acc
      cases acc
      simp
  | cons d rest ih =>
      intro acc
      rw [List.foldl_cons, ih]
      simp [trayDayStep, List.flatMap_cons, List.foldl_append, add_assoc]

/-- The outer loop of the Dashboard aggregation is a single fold over the
concatenation of the days' model lists. -/
lemma dashboardModelMap_foldl (days : List DailyUsage) :
    ∀ mm : List (String × ModelUsage),
      days.foldl dashDayStep mm =
        (days.flatMap (fun d => d.models)).foldl dashboardStep mm := by
  induction days with
  | nil => intro mm; rfl
  | cons d rest ih =>
      intro mm
      rw [List.foldl_cons, ih]
      simp [dashDayStep, List.flatMap_cons, List.foldl_append]

/-- The Dashboard's merge step and the Tray's merge step are the same
function. -/
lemma dashboardStep_eq_trayStep : dashboardStep = trayStep := by
  funext mm m
  unfold dashboardStep trayStep
  cases h : mapGet mm m.model with
  | some ex => simp
  | none =>
      have hm : addUsage
          { model := m.model, cost := 0, inputTokens := 0, outputTokens := 0 } m = m := by
        cases m
        simp [addUsage]
      simp [hm]

/-- The `periodTotals` reduce, over any accumulator, adds the per-day
sums componentwise. -/
lemma dashTotals_foldl (days : List DailyUsage) :
    ∀ acc : PeriodTotals,
      days.foldl dashTotalsStep acc =
        { cost := acc.cost + (days.map (fun d => d.cost)).sum
          inputTokens := acc.inputTokens + (days.map (fun d => d.inputTokens)).sum
          outputTokens := acc.outputTokens + (days.map (fun d => d.outputTokens)).sum
          totalTokens := acc.totalTokens + (days.map getDailyTotalTokens).sum
          cacheReadTokens := acc.cacheReadTokens
            + (days.map (fun d => d.cacheReadInputTokens)).sum
          cacheWriteTokens := acc.cacheWriteTokens
            + (days.map (fun d => d.cacheCreationInputTokens)).sum } := by
  induction days with
  | nil =>
      intro acc
      cases acc
      simp
  | cons d rest ih =>
      intro acc
      rw [List.foldl_cons, ih]
      simp [dashTotalsStep, add_assoc]

/-- C8: a date-range rollup sums the cost field and the token fields across
the days (in both the Tray and the Dashboard aggregations: total cost is
the sum of day costs, total tokens the sum over days of
input + output + cacheCreation + cacheRead), and merges per-model
breakdowns by model name: the entry for `name` is exactly the sum of the
cost, input-token and output-token fields of that model's occurrences
across the days. -/
theorem C8_rollup_sums (days : List DailyUsage) :
    (aggregateModels days).totalCost = (days.map (fun d => d.cost)).sum ∧
    (aggregateModels days).totalTokens =
      (days.map (fun d => d.inputTokens + d.outputTokens
        + d.cacheCreationInputTokens + d.cacheReadInputTokens)).sum ∧
    (dashboardPeriodTotals days).cost = (days.map (fun d => d.cost)).sum ∧
    (dashboardPeriodTotals days).totalTokens =
      (days.map (fun d => d.inputTokens + d.outputTokens
        + d.cacheCreationInputTokens + d.cacheReadInputTokens)).sum ∧
    ∀ name : String,
      mapGet (aggregateModels days).modelMap name =
        (if ((days.flatMap (fun d => d.models)).filter
              (fun m => m.model = name)) = [] then none
         else some
          { model := name
            cost := (((days.flatMap (fun d => d.models)).filter
                (fun m => m.model = name)).map (fun m => m.cost)).sum
            inputTokens := (((days.flatMap (fun d => d.models)).filter
                (fun m => m.model = name)).map (fun m => m.inputTokens)).sum
            outputTokens := (((days.flatMap (fun d => d.models)).filter
                (fun m => m.model = name)).map (fun m => m.outputTokens)).sum }) := by
  have hagg := aggregateModels_foldl days
    { modelMap := [], totalCost := 0, totalTokens := 0 }
  refine ⟨?_, ?_, ?_, ?_, ?_⟩
  · rw [aggregateModels, hagg]
    simp
  · rw [aggregateModels, hagg]
    show 0 + (days.map getDailyTotalTokens).sum
      = (days.map (fun d => d.inputTokens + d.outputTokens
          + d.cacheCreationInputTokens + d.cacheReadInputTokens)).sum
    rw [Nat.zero_add]
    rfl
  · rw [dashboardPeriodTotals, dashTotals_foldl]
    simp
  · rw [dashboardPeriodTotals, dashTotals_foldl]
    show 0 + (days.map getDailyTotalTokens).sum
      = (days.map (fun d => d.inputTokens + d.outputTokens
          + d.cacheCreationInputTokens + d.cacheReadInputTokens)).sum
    rw [Nat.zero_add]
    rfl
  · intro name
    rw [aggregateModels, hagg]
    have hnone : mapGet [] name = none := rfl
    rw [trayFold_lookup_none _ _ _ hnone]
    cases hfil : (days.flatMap (fun d => d.models)).filter
        (fun m => m.model = name) with
    | nil => simp
    | cons m fs =>
        simp [foldl_addUsage, addUsage, add_assoc]

/-- C10: for every list of days, the per-model aggregation of
`aggregateModels` (`src/Tray.tsx`) and the one computed inside
`Dashboard.filteredData` (`src/components/Dashboard.tsx`) produce the same
model map, hence the same mapping from model name to aggregated usage. -/
theorem C10_aggregations_agree (days : List DailyUsage) :
    dashboardModelMap days = (aggregateModels days).modelMap := by
  rw [dashboardModelMap, dashboardModelMap_foldl, dashboardStep_eq_trayStep,
    aggregateModels, aggregateModels_foldl]

/-- A command containing a shell metacharacter is rejected with
`shellMetacharacter` before anything else is looked at. -/
lemma validate_meta (cmd : String) (env : List (String × String))
    (h : containsShellMeta cmd = true) :
    validateCommand cmd env = .error .shellMetacharacter := by
  unfold validateCommand
  rw [if_pos h]

/-- C1: every command string containing one of the shell metacharacters
`; | & ` )` or the sequence `$(` is rejected by the validator with reason
`shellMetacharacter`, whatever the program name and env map, and no
pipeline run over such a command ever spawns a process. -/
theorem C1_shell_metacharacter (cmd : String) (env : List (String × String))
    (h : containsShellMeta cmd = true) :
    validateCommand cmd env = .error .shellMetacharacter ∧
    ∀ (E : PipelineEnv) (p : Provider) (cache : Option NormRecord) (now : String),
      p.fetchCommand = cmd → (runProvider E p cache now).spawned = false := by
  refine ⟨validate_meta cmd env h, ?_⟩
  intro E p cache now hcmd
  unfold runProvider
  by_cases hp : p.enabled = false
  · rw [if_pos hp]
  · rw [if_neg hp, hcmd, validate_meta cmd p.env h]

/-- Witness for C1: the command `curl a;b` (allow-listed program, but a `;`
present) is rejected with `shellMetacharacter`, and the pipeline run over
a provider carrying it spawns no process. -/
theorem C1_witness :
    validateCommand "curl a;b" [] = .error .shellMetacharacter ∧
    (runProvider failEnv metaProvider none "t").spawned = false :=
  ⟨(C1_shell_metacharacter "curl a;b" [] (by decide)).1,
   (C1_shell_metacharacter "curl a;b" [] (by decide)).2 failEnv metaProvider
     none "t" rfl⟩

/-- C3 counterexample: the command `curl ;${X}` contains the undeclared
placeholder `X` under the empty env map, yet the validator does not reject
it with `undeclaredVariable` — the metacharacter check fires first. -/
theorem C3_counterexample :
    "X" ∈ extractPlaceholders "curl ;$\x7bX\x7d" ∧
    envHasKey [] "X" = false ∧
    validateCommand "curl ;$\x7bX\x7d" [] ≠ .error .undeclaredVariable := by
  refine ⟨by decide, rfl, ?_⟩
  have h : validateCommand "curl ;$\x7bX\x7d" [] = .error .shellMetacharacter := rfl
  rw [h]
  intro hc
  exact RejectReason.noConfusion (Except.error.inj hc)

/-- C3 (amended): a command accepted by the validator has every `${X}`
placeholder declared in the provider's env map; and for a command that
passes the earlier checks (no metacharacters, well-formed quoting,
allow-listed program), any undeclared placeholder makes the validator
reject with `undeclaredVariable`. -/
theorem C3_undeclared_variable (cmd : String) (env : List (String × String)) :
    (∀ toks, validateCommand cmd env = .ok toks →
      ∀ v ∈ extractPlaceholders cmd, envHasKey env v = true) ∧
    (containsShellMeta cmd = false →
      ∀ w ws, splitWords cmd = some (w :: ws) →
        basename w ∈ allowedPrograms →
        (extractPlaceholders cmd).all (envHasKey env) = false →
        validateCommand cmd env = .error .undeclaredVariable) := by
  constructor
  · intro toks h v hv
    unfold validateCommand at h
    by_cases hm : containsShellMeta cmd = true
    · simp [hm] at h
    · simp only [Bool.not_eq_true] at hm
      cases hs : splitWords cmd with
      | none => simp [hm, hs] at h
      | some l =>
          cases l with
          | nil => simp [hm, hs] at h
          | cons w ws =>
              by_cases hb : basename w ∈ allowedPrograms
              · by_cases hall : (extractPlaceholders cmd).all (envHasKey env) = true
                · exact List.all_eq_true.mp hall v hv
                · simp [hm, hs, hb, hall] at h
              · simp [hm, hs, hb] at h
  · intro hm w ws hs hb hall
    unfold validateCommand
    simp [hm, hs, hb, hall]

/-- Witness for C3's amended claim: `curl ${X}` with an empty env map is
rejected with `undeclaredVariable`. -/
theorem C3_witness :
    validateCommand "curl $\x7bX\x7d" [] = .error .undeclaredVariable :=
  (C3_undeclared_variable "curl $\x7bX\x7d" []).2 (by decide)
    "curl" ["$\x7bX\x7d"] (by decide) (by decide) (by decide)

/-- A run of the sandbox loop that does not halt within the fuel bound
aborts with `resourceLimitExceeded`. -/
lemma sandboxAux_nohalt (sc : TransformScript) :
    ∀ fuel st, haltsWithinAux sc fuel st = false →
      sandboxAux sc fuel st = .error "resourceLimitExceeded" := by
  intro fuel
  induction fuel with
  | zero => intro st _; rfl
  | succ n ih =>
      intro st h
      unfold haltsWithinAux at h
      unfold sandboxAux
      cases hs : sc.step st with
      | running st' => rw [hs] at h; exact ih st' h
      | done v => rw [hs] at h; exact Bool.noConfusion h
      | threw m => rw [hs] at h; exact Bool.noConfusion h

/-- A script that does not halt within the budget makes the sandbox report
`resourceLimitExceeded`. -/
lemma sandbox_nohalt (sc : TransformScript) (input : Json) (budget : Nat)
    (h : haltsWithin sc input budget = false) :
    sandboxRun sc input budget = .error "resourceLimitExceeded" :=
  sandboxAux_nohalt sc budget (sc.init input) h

/-- C2: a transform script whose execution does not finish within the
sandbox budget (for example an infinite loop) is cut off, and the pipeline
run terminates with `TransformFailed("resourceLimitExceeded")` and records
it in `lastError` — the caller always receives an answer, since the
pipeline and sandbox are total functions. -/
theorem C2_resource_limit (E : PipelineEnv) (p : Provider)
    (cache : Option NormRecord) (now : String)
    (hen : p.enabled = true)
    (toks : List String)
    (hv : validateCommand p.fetchCommand p.env = .ok toks)
    (out : String)
    (hx : E.exec (toks.map (expandToken p.env)) p.env = .output out)
    (j : Json) (hj : E.parseJson out = some j)
    (hloop : haltsWithin p.transformScript j E.budget = false) :
    (runProvider E p cache now).outcome
      = .transformFailed "resourceLimitExceeded" ∧
    (runProvider E p cache now).provider.lastError
      = some "transform failed: resourceLimitExceeded" := by
  have hsb := sandbox_nohalt p.transformScript j E.budget hloop
  have hne : ¬p.enabled = false := by simp [hen]
  unfold runProvider
  rw [if_neg hne]
  simp [hv, hx, hj, hsb]

/-- Witness for C2: a provider whose script loops forever, with a budget
of 5 steps, yields `TransformFailed("resourceLimitExceeded")`. -/
theorem C2_witness :
    (runProvider okEnv loopProvider none "t").outcome
      = .transformFailed "resourceLimitExceeded" :=
  (C2_resource_limit okEnv loopProvider none "t" rfl
    ["curl", "https://x"] rfl "ok" rfl (.obj []) rfl rfl).1

/-- C4: a pipeline run over a disabled provider is a pure no-op: the
outcome is `skipped`, the provider record (including `lastFetchedAt` and
`lastError`) is returned unchanged, the cache is untouched and no process
is spawned; and a `refreshUsage` run maps that disabled provider to
exactly that skipped result. -/
theorem C4_disabled_skipped (E : PipelineEnv) (p : Provider)
    (cache : Option NormRecord) (now : String) (h : p.enabled = false) :
    runProvider E p cache now =
      { outcome := .skipped, provider := p, cache := cache, spawned := false } ∧
    ∀ (ps : List (Provider × Option NormRecord)) (i : Nat),
      ps[i]? = some (p, cache) →
      (refreshUsage E now ps)[i]? =
        some { outcome := .skipped, provider := p, cache := cache, spawned := false } := by
  have h1 : runProvider E p cache now =
      { outcome := .skipped, provider := p, cache := cache, spawned := false } := by
    unfold runProvider
    rw [if_pos h]
  refine ⟨h1, ?_⟩
  intro ps i hi
  unfold refreshUsage
  rw [List.getElem?_map, hi]
  simp [h1]

/-- Witness for C4: a concrete disabled provider (with stale status fields
and a command that would otherwise be rejected) is skipped untouched. -/
theorem C4_witness :
    runProvider failEnv disabledProvider none "t" =
      { outcome := .skipped, provider := disabledProvider, cache := none
        spawned := false } :=
  (C4_disabled_skipped failEnv disabledProvider none "t" rfl).1

/-- C5: for an enabled provider, every failing pipeline run sets
`lastError` to a message and leaves both the cached last-known-good data
and `lastFetchedAt` unchanged; every fully successful run sets
`lastFetchedAt` to the current time, clears `lastError` and replaces the
cache with the fresh record. -/
theorem C5_failure_preserves_cache (E : PipelineEnv) (p : Provider)
    (cache : Option NormRecord) (now : String) (hen : p.enabled = true) :
    ((runProvider E p cache now).outcome.isFailure = true →
      (∃ msg, (runProvider E p cache now).provider.lastError = some msg) ∧
      (runProvider E p cache now).cache = cache ∧
      (runProvider E p cache now).provider.lastFetchedAt = p.lastFetchedAt) ∧
    (∀ record, (runProvider E p cache now).outcome = .success record →
      (runProvider E p cache now).provider.lastFetchedAt = some now ∧
      (runProvider E p cache now).provider.lastError = none ∧
      (runProvider E p cache now).cache = some record) := by
  have hne : ¬p.enabled = false := by simp [hen]
  unfold runProvider
  rw [if_neg hne]
  split
  · exact ⟨fun _ => ⟨⟨_, rfl⟩, rfl, rfl⟩,
      fun record hr => PipelineOutcome.noConfusion hr⟩
  · split
    · exact ⟨fun _ => ⟨⟨_, rfl⟩, rfl, rfl⟩,
        fun record hr => PipelineOutcome.noConfusion hr⟩
    · split
      · exact ⟨fun _ => ⟨⟨_, rfl⟩, rfl, rfl⟩,
          fun record hr => PipelineOutcome.noConfusion hr⟩
      · split
        · exact ⟨fun _ => ⟨⟨_, rfl⟩, rfl, rfl⟩,
            fun record hr => PipelineOutcome.noConfusion hr⟩
        · split
          · exact ⟨fun _ => ⟨⟨_, rfl⟩, rfl, rfl⟩,
              fun record hr => PipelineOutcome.noConfusion hr⟩
          · refine ⟨fun hf => ?_, fun record hr => ?_⟩
            · exact absurd hf (by simp [PipelineOutcome.isFailure])
            · obtain rfl := PipelineOutcome.success.inj hr
              exact ⟨rfl, rfl, rfl⟩

/-- Witness for C5: a run whose fetch fails keeps the previously cached
record and records an error message. -/
theorem C5_witness :
    (∃ msg, (runProvider failEnv curlProvider (some cachedRecord) "t").provider.lastError
      = some msg) ∧
    (runProvider failEnv curlProvider (some cachedRecord) "t").cache
      = some cachedRecord := by
  have h := (C5_failure_preserves_cache failEnv curlProvider
    (some cachedRecord) "t" rfl).1 rfl
  exact ⟨h.1, h.2.1⟩

end Tokenmeter
